import Mathlib

/-!
Shallow embedding of the animate.js library (src/index.ts and
src/timing-functions.ts).  Numbers are modelled as rationals, the injected
clock (relativeTimeSeconds) as a stream of readings indexed by a query
counter, the injected scheduler (enqueue) as a counter of pending handler
callbacks, and every callback invocation as an entry in an event trace.
-/

/-- Events observable by the caller of the library: one constructor per
configured callback invocation, plus promise settlement events. -/
inductive Ev where
  | start : Ev
  | update (state stateProgress timeProgress : ℚ) : Ev
  | pauseEv (timeProgress : ℚ) : Ev
  | resumeEv (timeProgress : ℚ) : Ev
  | endEv : Ev
  | cancelEv : Ev
  | resolvedP (pid : ℕ) : Ev
  | rejectedP (pid : ℕ) : Ev
deriving DecidableEq, Repr

/-! Timing function library, from src/timing-functions.ts. -/

/-- Embedding of the function linear of src/timing-functions.ts. -/
def linear : ℚ → ℚ := fun progress => progress

/-- Embedding of the function cubicBezier of src/timing-functions.ts. -/
def cubicBezier (x1 y1 x2 y2 : ℚ) : ℚ → ℚ := fun progress =>
  let strength1 := x1
  let strength2 := 1 - x2
  let targetDelta1 := y1 - progress
  let targetDelta2 := y2 - progress
  let progress1 := 1 - progress
  let progress2 := progress
  let power1 := progress1 ^ 2
  let power2 := progress2 ^ 2
  let shift1 := targetDelta1 * (strength1 * power1)
  let shift2 := targetDelta2 * (strength2 * power2)
  progress + shift1 + shift2

/-- Embedding of easeInOut (strength defaults to 0.5 at call sites). -/
def easeInOut (strength : ℚ) : ℚ → ℚ := cubicBezier strength 0 (1 - strength) 1

/-- Embedding of easeIn. -/
def easeIn (strength : ℚ) : ℚ → ℚ := cubicBezier strength 0 1 1

/-- Embedding of easeOut. -/
def easeOut (strength : ℚ) : ℚ → ℚ := cubicBezier 0 0 (1 - strength) 1

/-- Embedding of allOrNothing. -/
def allOrNothing (threshold : ℚ) : ℚ → ℚ := fun progress =>
  if progress ≥ threshold then 1 else 0

/-- Embedding of steps. -/
def steps (count : ℚ) : ℚ → ℚ := fun progress =>
  ((⌊progress * count⌋ : ℤ) : ℚ) / count

/-- Embedding of fixed. -/
def fixed (progress : ℚ) : ℚ → ℚ := fun _ => progress

/-- Embedding of filpX (the typo for flipX is in the source). -/
def filpX (timingFunction : ℚ → ℚ) : ℚ → ℚ := fun progress =>
  timingFunction (1 - progress)

/-- Embedding of filpY. -/
def filpY (timingFunction : ℚ → ℚ) : ℚ → ℚ := fun progress =>
  1 - timingFunction progress

/-- Result record of getSectionDeltaInfo inside gravitate. -/
structure SectionDeltaInfo where
  maxDelta : ℚ
  startProgress : ℚ
  endProgress : ℚ
deriving DecidableEq, Repr

/-- Loop body of getSectionDeltaInfo: iterates progress from the start by
steps of 0.01 while progress is at most 1, breaking when the sign of the
divergence between the two curves flips.  The fuel argument is chosen by
the caller large enough that the loop always reaches its own guard. -/
def sectionLoop (orbitor gravitator : ℚ → ℚ) :
    ℕ → ℚ → ℚ → ℚ → ℚ → ℚ × ℚ
  | 0, _, _, maxDeltaAbs, endProgress => (maxDeltaAbs, endProgress)
  | fuel + 1, progress, maxDelta, maxDeltaAbs, endProgress =>
    if progress ≤ 1 then
      let orbitorState := orbitor progress
      let gravitatorState := gravitator progress
      let deltaState := orbitorState - gravitatorState
      if (deltaState > 0 ∧ maxDelta < 0) ∨ (deltaState < 0 ∧ maxDelta > 0) then
        (maxDeltaAbs, endProgress)
      else
        let deltaStateAbs := |deltaState|
        if deltaStateAbs > maxDeltaAbs then
          sectionLoop orbitor gravitator fuel (progress + 1/100) deltaState
            deltaStateAbs progress
        else
          sectionLoop orbitor gravitator fuel (progress + 1/100) maxDelta
            maxDeltaAbs progress
    else (maxDeltaAbs, endProgress)

/-- Embedding of getSectionDeltaInfo of gravitate.  The fuel bound covers
every iteration the source loop can perform. -/
def getSectionDeltaInfo (orbitor gravitator : ℚ → ℚ) (startProgress : ℚ) :
    SectionDeltaInfo :=
  let fuel := (⌈(1 - startProgress) * 100⌉).toNat + 1
  let r := sectionLoop orbitor gravitator fuel startProgress 0 0 startProgress
  { maxDelta := r.1, startProgress := startProgress, endProgress := r.2 }

/-- Embedding of the closure returned by gravitate: takes the cached
section as explicit state and returns the output together with the
possibly recomputed section. -/
def gravitateQuery (orbitor gravitator : ℚ → ℚ) (sec : SectionDeltaInfo)
    (progress : ℚ) : ℚ × SectionDeltaInfo :=
  let orbitorState := orbitor progress
  let gravitatorState := gravitator progress
  let sec' := if progress > sec.endProgress
    then getSectionDeltaInfo orbitor gravitator progress
    else sec
  let deltaState := |orbitorState - gravitatorState|
  let deltaStateRelative := if sec'.maxDelta = 0 then 0
    else deltaState / sec'.maxDelta
  (orbitorState + ((gravitatorState - orbitorState) * deltaStateRelative), sec')

/-- Initial cached section of gravitate, computed at construction time. -/
def gravitateInit (orbitor gravitator : ℚ → ℚ) : SectionDeltaInfo :=
  getSectionDeltaInfo orbitor gravitator 0

/-- Cache of the cached combinator: association list keyed by the exact
input value, mirroring the Map of the source. -/
def cacheGet : List (ℚ × ℚ) → ℚ → Option ℚ
  | [], _ => none
  | (k, v) :: rest, progress => if k = progress then some v else cacheGet rest progress

/-- State of one cached timing function: the memo table plus the number of
invocations of the underlying function performed so far. -/
structure CachedState where
  cache : List (ℚ × ℚ)
  calls : ℕ
deriving DecidableEq, Repr

/-- Embedding of the closure returned by cached.  The underlying (possibly
impure) timing function is modelled as a function of the invocation index
and the input, so that a nondeterministic source such as Math.random can be
represented by a result stream. -/
def cachedCall (underlying : ℕ → ℚ → ℚ) (st : CachedState) (progress : ℚ) :
    ℚ × CachedState :=
  match cacheGet st.cache progress with
  | some cacheResult => (cacheResult, st)
  | none =>
    let result := underlying st.calls progress
    (result, { cache := (progress, result) :: st.cache, calls := st.calls + 1 })

/-- Embedding of random: a cached wrapper around a function that ignores
its input and draws the next value from the Math.random result stream. -/
def randomCall (stream : ℕ → ℚ) (st : CachedState) (progress : ℚ) :
    ℚ × CachedState :=
  cachedCall (fun k _ => stream k) st progress

/-! Animation engine, from the Animation class of src/index.ts. -/

/-- Settlement state of one promise returned by Animation.promise. -/
inductive PState where
  | pendingP : PState
  | resolvedS : PState
  | rejectedS : PState
deriving DecidableEq, Repr

/-- One element of the onEnd callback chain: either the original callback
from the config, or the resolve half of a promise wrapper. -/
inductive EndAtom where
  | orig : EndAtom
  | resolveA (pid : ℕ) : EndAtom
deriving DecidableEq, Repr

/-- One element of the onCancel callback chain. -/
inductive CancelAtom where
  | orig : CancelAtom
  | rejectA (pid : ℕ) : CancelAtom
deriving DecidableEq, Repr

/-- Lookup of a promise settlement state by id. -/
def plookup : List (ℕ × PState) → ℕ → Option PState
  | [], _ => none
  | (k, v) :: rest, pid => if k = pid then some v else plookup rest pid

/-- Update of a promise settlement state by id. -/
def pset : List (ℕ × PState) → ℕ → PState → List (ℕ × PState)
  | [], _, _ => []
  | (k, v) :: rest, pid, st =>
    if k = pid then (k, st) :: rest else (k, v) :: pset rest pid st

/-- Invocation of the accumulated onEnd callback chain: the original
callback emits an onEnd event, and each promise-resolve wrapper settles its
promise, emitting a settlement event only when the promise was still
pending (first settlement wins, as for a JS promise). -/
def invokeEndChain : List EndAtom → List (ℕ × PState) →
    List Ev × List (ℕ × PState)
  | [], ps => ([], ps)
  | EndAtom.orig :: rest, ps =>
    let r := invokeEndChain rest ps
    (Ev.endEv :: r.1, r.2)
  | EndAtom.resolveA pid :: rest, ps =>
    if plookup ps pid = some PState.pendingP then
      let r := invokeEndChain rest (pset ps pid PState.resolvedS)
      (Ev.resolvedP pid :: r.1, r.2)
    else invokeEndChain rest ps

/-- Invocation of the accumulated onCancel callback chain. -/
def invokeCancelChain : List CancelAtom → List (ℕ × PState) →
    List Ev × List (ℕ × PState)
  | [], ps => ([], ps)
  | CancelAtom.orig :: rest, ps =>
    let r := invokeCancelChain rest ps
    (Ev.cancelEv :: r.1, r.2)
  | CancelAtom.rejectA pid :: rest, ps =>
    if plookup ps pid = some PState.pendingP then
      let r := invokeCancelChain rest (pset ps pid PState.rejectedS)
      (Ev.rejectedP pid :: r.1, r.2)
    else invokeCancelChain rest ps

/-- Immutable part of the AnimationConfig of src/index.ts.  Optional
callbacks are represented by presence booleans; onUpdate is required and
always present.  The onEnd and onCancel slots live in the mutable state
because Animation.promise rebinds them. -/
structure AnimConfig where
  fromVal : ℚ
  toVal : ℚ
  durationSeconds : ℚ
  progress : Option ℚ
  timingFunction : Option (ℚ → ℚ)
  maxFps : Option ℚ
  hasOnStart : Bool
  hasOnPause : Bool
  hasOnResume : Bool
  hasOnEnd : Bool
  hasOnCancel : Bool

/-- Full state of one Animation instance, together with the injected clock
stream, the pending scheduler callbacks, and the promise table. -/
structure AnimState where
  config : AnimConfig
  clock : ℕ → ℚ
  clockIdx : ℕ
  minHandlerCallTimeElapsed : Option ℚ
  lastHandlerCallTime : Option ℚ
  startTime : Option ℚ
  pauseTime : Option ℚ
  resumeTime : Option ℚ
  endTime : Option ℚ
  cancelTime : Option ℚ
  timeProgress : ℚ
  onEndChain : List EndAtom
  onCancelChain : List CancelAtom
  promises : List (ℕ × PState)
  nextPid : ℕ
  pending : ℕ

/-- Constructor of the Animation class: minHandlerCallTimeElapsed is
1/maxFps when maxFps is truthy (present and nonzero), timeProgress starts
at the configured progress or 0, and the callback chains hold the original
callbacks when configured. -/
def mkAnimation (cfg : AnimConfig) (clock : ℕ → ℚ) : AnimState :=
  { config := cfg
    clock := clock
    clockIdx := 0
    minHandlerCallTimeElapsed :=
      match cfg.maxFps with
      | some fps => if fps = 0 then none else some (1 / fps)
      | none => none
    lastHandlerCallTime := none
    startTime := none
    pauseTime := none
    resumeTime := none
    endTime := none
    cancelTime := none
    timeProgress := cfg.progress.getD 0
    onEndChain := if cfg.hasOnEnd then [EndAtom.orig] else []
    onCancelChain := if cfg.hasOnCancel then [CancelAtom.orig] else []
    promises := []
    nextPid := 0
    pending := 0 }

/-- Embedding of Animation.hasStarted. -/
def hasStarted (s : AnimState) : Bool := s.startTime.isSome

/-- Embedding of Animation.isPaused. -/
def isPaused (s : AnimState) : Bool := s.pauseTime.isSome

/-- Embedding of Animation.hasEnded. -/
def hasEnded (s : AnimState) : Bool := s.endTime.isSome

/-- Embedding of Animation.isCanceled. -/
def isCanceled (s : AnimState) : Bool := s.cancelTime.isSome

/-- Embedding of Animation.isRunning. -/
def isRunning (s : AnimState) : Bool :=
  hasStarted s && !hasEnded s && !isPaused s && !isCanceled s

/-- Reading the injected clock consumes one entry of the reading stream. -/
def readClock (s : AnimState) : ℚ × AnimState :=
  (s.clock s.clockIdx, { s with clockIdx := s.clockIdx + 1 })

/-- Reference time of the elapsed-time computations: the source expression
resumeTime or else startTime or else currentTime. -/
def refTime (s : AnimState) (currentTime : ℚ) : ℚ :=
  match s.resumeTime with
  | some r => r
  | none =>
    match s.startTime with
    | some t => t
    | none => currentTime

/-- Clamping of the time progress performed at the top of
Animation.render: two successive conditional assignments. -/
def clampTP (timeProgress : ℚ) : ℚ :=
  if timeProgress > 1 then 1
  else if timeProgress < 0 then 0
  else timeProgress

/-- Application of the configured timing function, or the identity when
none is configured. -/
def applyTiming (cfg : AnimConfig) (timeProgress : ℚ) : ℚ :=
  match cfg.timingFunction with
  | some f => f timeProgress
  | none => timeProgress

/-- Embedding of Animation.render: clamps, applies the timing function
(identity when none is configured), interpolates, and emits the onUpdate
event.  It mutates no state. -/
def render (cfg : AnimConfig) (timeProgressRaw : ℚ) : List Ev :=
  let timeProgress := clampTP timeProgressRaw
  let stateProgress := applyTiming cfg timeProgress
  let state := cfg.fromVal + ((cfg.toVal - cfg.fromVal) * stateProgress)
  [Ev.update state stateProgress timeProgress]

/-- Embedding of Animation.end. -/
def animEnd (s : AnimState) : AnimState × List Ev :=
  if hasEnded s || isCanceled s then (s, [])
  else
    let evs1 := render s.config 1
    let t := s.clock s.clockIdx
    let s1 := { s with
      clockIdx := s.clockIdx + 1
      timeProgress := 1
      endTime := some t }
    let r := invokeEndChain s1.onEndChain s1.promises
    ({ s1 with promises := r.2 }, evs1 ++ r.1)

/-- Embedding of Animation.handler.  The timeProgress argument is null
when the handler is invoked through the scheduler.  Scheduling one more
handler call increases the pending counter. -/
def handlerStep (s : AnimState) (timeProgressArg : Option ℚ) :
    AnimState × List Ev :=
  if !isRunning s then (s, [])
  else
    let currentTime := s.clock s.clockIdx
    let s := { s with clockIdx := s.clockIdx + 1 }
    let throttled : Bool :=
      match s.config.maxFps, s.minHandlerCallTimeElapsed, s.lastHandlerCallTime with
      | some fps, some minElapsed, some lastTime =>
        fps ≠ 0 && currentTime - lastTime < minElapsed
      | _, _, _ => false
    if throttled then ({ s with pending := s.pending + 1 }, [])
    else
      let s := { s with lastHandlerCallTime := some currentTime }
      let timeProgress :=
        match timeProgressArg with
        | some tp => tp
        | none =>
          let elapsedTime := currentTime - refTime s currentTime
          s.timeProgress + elapsedTime / s.config.durationSeconds
      if timeProgress ≥ 1 then animEnd s
      else ({ s with pending := s.pending + 1 }, render s.config timeProgress)

/-- Embedding of Animation.start. -/
def animStart (s : AnimState) : AnimState × List Ev :=
  if hasStarted s || isCanceled s then (s, [])
  else
    let t := s.clock s.clockIdx
    let s1 := { s with clockIdx := s.clockIdx + 1, startTime := some t }
    let s2 :=
      if s1.config.hasOnStart then
        { s1 with clockIdx := s1.clockIdx + 1
                  startTime := some (s1.clock s1.clockIdx) }
      else s1
    let evs0 := if s1.config.hasOnStart then [Ev.start] else []
    let r := handlerStep s2 (some s2.timeProgress)
    (r.1, evs0 ++ r.2)

/-- Embedding of Animation.pause. -/
def animPause (s : AnimState) : AnimState × List Ev :=
  if isPaused s || isCanceled s then (s, [])
  else
    let currentTime := s.clock s.clockIdx
    let s1 := { s with clockIdx := s.clockIdx + 1 }
    let elapsedTime := currentTime - refTime s1 currentTime
    let additionalTimeProgress := elapsedTime / s1.config.durationSeconds
    let s2 := { s1 with
      timeProgress := s1.timeProgress + additionalTimeProgress
      pauseTime := some currentTime
      resumeTime := none }
    (s2, if s2.config.hasOnPause then [Ev.pauseEv s2.timeProgress] else [])

/-- Embedding of Animation.resume. -/
def animResume (s : AnimState) : AnimState × List Ev :=
  if !isPaused s || isCanceled s then (s, [])
  else
    let t := s.clock s.clockIdx
    let s1 := { s with clockIdx := s.clockIdx + 1
                       resumeTime := some t
                       pauseTime := none }
    let s2 :=
      if s1.config.hasOnResume then
        { s1 with clockIdx := s1.clockIdx + 1
                  resumeTime := some (s1.clock s1.clockIdx) }
      else s1
    let evs0 := if s1.config.hasOnResume then [Ev.resumeEv s1.timeProgress] else []
    let r := handlerStep s2 (some s2.timeProgress)
    (r.1, evs0 ++ r.2)

/-- Embedding of Animation.cancel. -/
def animCancel (s : AnimState) : AnimState × List Ev :=
  if isCanceled s then (s, [])
  else
    let t := s.clock s.clockIdx
    let s1 := { s with clockIdx := s.clockIdx + 1, cancelTime := some t }
    let r := invokeCancelChain s1.onCancelChain s1.promises
    ({ s1 with promises := r.2 }, r.1)

/-- Result of Animation.promise as seen by the caller. -/
inductive PromiseResult where
  | resolvedNow : PromiseResult
  | rejectedNow : PromiseResult
  | pendingNew (pid : ℕ) : PromiseResult
deriving DecidableEq, Repr

/-- Embedding of Animation.promise: already-settled results for terminal
instances, otherwise a fresh promise whose resolve and reject halves are
appended to the onEnd and onCancel chains (composing with, not replacing,
the callbacks already there). -/
def animPromise (s : AnimState) : AnimState × PromiseResult :=
  if hasEnded s then (s, PromiseResult.resolvedNow)
  else if isCanceled s then (s, PromiseResult.rejectedNow)
  else
    let pid := s.nextPid
    ({ s with
        onEndChain := s.onEndChain ++ [EndAtom.resolveA pid]
        onCancelChain := s.onCancelChain ++ [CancelAtom.rejectA pid]
        promises := s.promises ++ [(pid, PState.pendingP)]
        nextPid := pid + 1 },
      PromiseResult.pendingNew pid)

/-- One scheduler callback firing: consumes a pending handler call, if
any, and runs the handler with a null timeProgress argument. -/
def animTick (s : AnimState) : AnimState × List Ev :=
  if s.pending = 0 then (s, [])
  else handlerStep { s with pending := s.pending - 1 } none

/-- Operations a host or caller can perform on one Animation instance. -/
inductive Op where
  | startOp : Op
  | pauseOp : Op
  | resumeOp : Op
  | endOp : Op
  | cancelOp : Op
  | tickOp : Op
deriving DecidableEq, Repr

/-- Dispatch of one operation. -/
def step : Op → AnimState → AnimState × List Ev
  | Op.startOp, s => animStart s
  | Op.pauseOp, s => animPause s
  | Op.resumeOp, s => animResume s
  | Op.endOp, s => animEnd s
  | Op.cancelOp, s => animCancel s
  | Op.tickOp, s => animTick s

/-- Run of a sequence of operations, concatenating the event traces. -/
def runOps : List Op → AnimState → AnimState × List Ev
  | [], s => (s, [])
  | op :: rest, s =>
    let r := step op s
    let r' := runOps rest r.1
    (r'.1, r.2 ++ r'.2)

/-! Function-based animate of src/index.ts (the earlier revision bundled in
the same file): a closure-based loop whose handler recomputes the time
progress from the clock on every scheduled call. -/

/-- Config of the function-based animate. -/
structure FnConfig where
  fromVal : ℚ
  toVal : ℚ
  durationSeconds : ℚ
  startProgress : Option ℚ
  timingFunction : Option (ℚ → ℚ)
  hasOnStart : Bool
  hasOnEnd : Bool

/-- Handler of the function-based animate.  Returns the clock index after
the call, the events emitted, and whether the handler re-enqueued itself. -/
def fnHandler (cfg : FnConfig) (startTime : ℚ) (clock : ℕ → ℚ) (clockIdx : ℕ)
    (timeProgressArg : Option ℚ) : ℕ × List Ev × Bool :=
  let r0 : ℚ × ℕ :=
    match timeProgressArg with
    | some tp => (tp, clockIdx)
    | none => ((clock clockIdx - startTime) / cfg.durationSeconds, clockIdx + 1)
  let tp0 := r0.1
  let tp1 :=
    match cfg.startProgress with
    | some sp => if sp = 0 then tp0 else tp0 + sp
    | none => tp0
  let tp2 := if tp1 > 1 then 1 else tp1
  let timeProgress := if tp2 < 0 then 0 else tp2
  let stateProgress :=
    match cfg.timingFunction with
    | some f => f timeProgress
    | none => timeProgress
  let state := cfg.fromVal + ((cfg.toVal - cfg.fromVal) * stateProgress)
  let evs := [Ev.update state stateProgress timeProgress]
  if timeProgress ≥ 1 then
    (r0.2, evs ++ (if cfg.hasOnEnd then [Ev.endEv] else []), false)
  else (r0.2, evs, true)

/-- Driver of the function-based animate loop: keeps invoking the handler
while it re-enqueues itself, up to the given fuel.  The boolean result is
true when the loop terminated by itself (no callback left enqueued). -/
def fnRun (cfg : FnConfig) (startTime : ℚ) (clock : ℕ → ℚ) :
    ℕ → ℕ → Option ℚ → List Ev × Bool
  | 0, _, _ => ([], false)
  | fuel + 1, clockIdx, arg =>
    let r := fnHandler cfg startTime clock clockIdx arg
    if r.2.2 then
      let r' := fnRun cfg startTime clock fuel r.1 none
      (r.2.1 ++ r'.1, r'.2)
    else (r.2.1, true)

/-- Embedding of the function-based animate: invokes onStart, reads the
start time (clock query 0), then calls the handler synchronously with the
explicit time progress 0.0. -/
def animateFn (cfg : FnConfig) (clock : ℕ → ℚ) (fuel : ℕ) : List Ev × Bool :=
  let evs0 := if cfg.hasOnStart then [Ev.start] else []
  let startTime := clock 0
  let r := fnRun cfg startTime clock fuel 1 (some 0)
  (evs0 ++ r.1, r.2)

/-! Theorems. -/

/-- Claim C9: querying a cached timing function twice with the identical
input yields the identical output both times, and the second query leaves
the cache state (including the count of invocations of the underlying
function) unchanged, so the underlying function is not re-invoked; in
particular the random timing function queried twice at the same progress
value returns the same value both times. -/
theorem cached_repeat_query_stable :
    (∀ (underlying : ℕ → ℚ → ℚ) (st : CachedState) (progress : ℚ),
      cachedCall underlying (cachedCall underlying st progress).2 progress
        = cachedCall underlying st progress)
    ∧ (∀ (stream : ℕ → ℚ) (st : CachedState) (progress : ℚ),
      randomCall stream (randomCall stream st progress).2 progress
        = randomCall stream st progress) := by
  have key : ∀ (underlying : ℕ → ℚ → ℚ) (st : CachedState) (progress : ℚ),
      cachedCall underlying (cachedCall underlying st progress).2 progress
        = cachedCall underlying st progress := by
    intro u st p
    unfold cachedCall
    cases h : cacheGet st.cache p with
    | some v => simp [h]
    | none => simp [h, cacheGet]
  exact ⟨key, fun stream st p => key (fun k _ => stream k) st p⟩

/-- Claim C8: for a query progress value inside the currently cached
section (not beyond its endProgress), gravitate leaves the section
unchanged and returns the orbitor value pulled toward the gravitator value
in proportion of the current divergence to the section's recorded maximum
absolute divergence, returning the orbitor value itself when that maximum
is zero. -/
theorem gravitate_in_section_formula (orbitor gravitator : ℚ → ℚ)
    (sec : SectionDeltaInfo) (p : ℚ) (h : p ≤ sec.endProgress) :
    (gravitateQuery orbitor gravitator sec p).2 = sec
    ∧ (sec.maxDelta ≠ 0 →
        (gravitateQuery orbitor gravitator sec p).1
          = orbitor p + ((gravitator p - orbitor p)
              * (|orbitor p - gravitator p| / sec.maxDelta)))
    ∧ (sec.maxDelta = 0 →
        (gravitateQuery orbitor gravitator sec p).1 = orbitor p) := by
  have hnot : ¬ p > sec.endProgress := not_lt.mpr h
  refine ⟨?_, ?_, ?_⟩
  · simp [gravitateQuery, hnot]
  · intro hmd
    simp [gravitateQuery, hnot, hmd]
  · intro hmd
    simp [gravitateQuery, hnot, hmd]

/-- Witness for claim C8 at a concrete input: the linear orbitor against
the constant gravitator one half, with the section cached at construction
time, queried at one quarter. -/
theorem gravitate_in_section_formula_witness :
    ((1 : ℚ)/4 ≤ (SectionDeltaInfo.mk (1/2) 0 (1/2)).endProgress
      ∧ (SectionDeltaInfo.mk ((1 : ℚ)/2) 0 (1/2)).maxDelta ≠ 0)
    ∧ (gravitateQuery linear (fixed (1/2)) (SectionDeltaInfo.mk (1/2) 0 (1/2)) (1/4)).1
        = linear (1/4) + ((fixed (1/2) (1/4) - linear (1/4))
            * (|linear (1/4) - fixed (1/2) (1/4)| / (SectionDeltaInfo.mk ((1 : ℚ)/2) 0 (1/2)).maxDelta)) :=
  ⟨⟨by norm_num, by norm_num⟩,
    (gravitate_in_section_formula linear (fixed (1/2))
      (SectionDeltaInfo.mk (1/2) 0 (1/2)) (1/4) (by norm_num)).2.1 (by norm_num)⟩

/-- Claim C3: with from 0, to 100, duration one second, default linear
timing, no maxFps and an injected clock answering 0.0, 0.5 and 1.0 on its
three successive queries, the function-based animate produces exactly
three onUpdate calls with states 0, 50 and 100 in that order, the third
one followed by onEnd, and the loop terminates by itself. -/
theorem animate_linear_three_tick_scenario :
    animateFn
      { fromVal := 0, toVal := 100, durationSeconds := 1, startProgress := none,
        timingFunction := none, hasOnStart := false, hasOnEnd := true }
      (fun n => if n = 0 then 0 else if n = 1 then 1/2 else 1) 5
    = ([Ev.update 0 0 0, Ev.update 50 (1/2) (1/2), Ev.update 100 1 1, Ev.endEv],
       true) := by
  norm_num [animateFn, fnRun, fnHandler]

/-- Helper: the onEnd callback chain never emits an onUpdate event. -/
lemma invokeEndChain_update_not_mem (chain : List EndAtom) :
    ∀ (ps : List (ℕ × PState)) (st sp tp : ℚ),
      Ev.update st sp tp ∉ (invokeEndChain chain ps).1 := by
  induction chain with
  | nil => intro ps st sp tp; simp [invokeEndChain]
  | cons a rest ih =>
    intro ps st sp tp
    cases a with
    | orig =>
      simp only [invokeEndChain, List.mem_cons]
      rintro (h | h)
      · exact Ev.noConfusion h
      · exact ih ps st sp tp h
    | resolveA pid =>
      by_cases h : plookup ps pid = some PState.pendingP
      · simp only [invokeEndChain, if_pos h, List.mem_cons]
        rintro (h' | h')
        · exact Ev.noConfusion h'
        · exact ih _ st sp tp h'
      · simp only [invokeEndChain, if_neg h]
        exact ih ps st sp tp

/-- Helper: the onCancel callback chain never emits an onUpdate event. -/
lemma invokeCancelChain_update_not_mem (chain : List CancelAtom) :
    ∀ (ps : List (ℕ × PState)) (st sp tp : ℚ),
      Ev.update st sp tp ∉ (invokeCancelChain chain ps).1 := by
  induction chain with
  | nil => intro ps st sp tp; simp [invokeCancelChain]
  | cons a rest ih =>
    intro ps st sp tp
    cases a with
    | orig =>
      simp only [invokeCancelChain, List.mem_cons]
      rintro (h | h)
      · exact Ev.noConfusion h
      · exact ih ps st sp tp h
    | rejectA pid =>
      by_cases h : plookup ps pid = some PState.pendingP
      · simp only [invokeCancelChain, if_pos h, List.mem_cons]
        rintro (h' | h')
        · exact Ev.noConfusion h'
        · exact ih _ st sp tp h'
      · simp only [invokeCancelChain, if_neg h]
        exact ih ps st sp tp

/-- Helper: a render result is a singleton, so membership determines it. -/
lemma render_mem_eq (cfg : AnimConfig) (raw : ℚ) (e : Ev) (h : e ∈ render cfg raw) :
    render cfg raw = [e] := by
  simp only [render, List.mem_singleton] at h
  simp only [render, h]

/-- Helper: every onUpdate event emitted by Animation.end comes from the
forced final render at time progress 1. -/
lemma animEnd_update_from_render (s : AnimState) (st sp tp : ℚ)
    (h : Ev.update st sp tp ∈ (animEnd s).2) :
    render s.config 1 = [Ev.update st sp tp] := by
  unfold animEnd at h
  split at h
  · simp at h
  · dsimp only at h
    rw [List.mem_append] at h
    rcases h with h | h
    · exact render_mem_eq _ _ _ h
    · exact absurd h (invokeEndChain_update_not_mem _ _ _ _ _)

/-- Helper: every onUpdate event emitted by the tick handler comes from
Animation.render applied to the configured curve. -/
lemma handlerStep_update_from_render (s : AnimState) (arg : Option ℚ)
    (st sp tp : ℚ) (h : Ev.update st sp tp ∈ (handlerStep s arg).2) :
    ∃ raw, render s.config raw = [Ev.update st sp tp] := by
  cases arg with
  | none =>
    unfold handlerStep at h
    dsimp only at h
    split at h
    · simp at h
    · split at h
      · simp at h
      · split at h
        · have h2 := animEnd_update_from_render _ st sp tp h
          exact ⟨1, h2⟩
        · exact ⟨_, render_mem_eq _ _ _ h⟩
  | some tpv =>
    unfold handlerStep at h
    dsimp only at h
    split at h
    · simp at h
    · split at h
      · simp at h
      · split at h
        · have h2 := animEnd_update_from_render _ st sp tp h
          exact ⟨1, h2⟩
        · exact ⟨_, render_mem_eq _ _ _ h⟩

/-- Claim C4: Animation.render clamps its time progress argument to the
unit interval, applies the configured timing function (the identity when
none is configured) to the clamped value, interpolates the state linearly
between the configured bounds, and delivers the triple to onUpdate; with
identity timing the state at time progress t inside the unit interval is
exactly fromVal + (toVal - fromVal) * t, exactly fromVal at 0 and exactly
toVal at 1; and every onUpdate event any operation emits comes from this
render path. -/
theorem render_contract :
    (∀ (cfg : AnimConfig) (tp : ℚ),
      render cfg tp = [Ev.update
          (cfg.fromVal + ((cfg.toVal - cfg.fromVal) * applyTiming cfg (clampTP tp)))
          (applyTiming cfg (clampTP tp)) (clampTP tp)]
        ∧ 0 ≤ clampTP tp ∧ clampTP tp ≤ 1)
    ∧ (∀ (cfg : AnimConfig) (t : ℚ), cfg.timingFunction = none →
        0 ≤ t → t ≤ 1 →
        render cfg t = [Ev.update (cfg.fromVal + ((cfg.toVal - cfg.fromVal) * t)) t t])
    ∧ (∀ (cfg : AnimConfig), cfg.timingFunction = none →
        render cfg 0 = [Ev.update cfg.fromVal 0 0]
        ∧ render cfg 1 = [Ev.update cfg.toVal 1 1])
    ∧ (∀ (op : Op) (s : AnimState) (st sp tp : ℚ),
        Ev.update st sp tp ∈ (step op s).2 →
        ∃ raw, render s.config raw = [Ev.update st sp tp]) := by
  have hclamp : ∀ tp : ℚ, 0 ≤ clampTP tp ∧ clampTP tp ≤ 1 := by
    intro tp
    unfold clampTP
    split_ifs with h1 h2 <;> refine ⟨by linarith, by linarith⟩
  have hid : ∀ (cfg : AnimConfig) (t : ℚ), cfg.timingFunction = none →
      0 ≤ t → t ≤ 1 →
      render cfg t = [Ev.update (cfg.fromVal + ((cfg.toVal - cfg.fromVal) * t)) t t] := by
    intro cfg t hnone h0 h1
    have hc : clampTP t = t := by
      unfold clampTP
      split_ifs with ha hb
      · linarith
      · linarith
      · rfl
    simp [render, applyTiming, hnone, hc]
  refine ⟨?_, hid, ?_, ?_⟩
  · intro cfg tp
    exact ⟨rfl, hclamp tp⟩
  · intro cfg hnone
    constructor
    · have := hid cfg 0 hnone (by norm_num) (by norm_num)
      simpa using this
    · have := hid cfg 1 hnone (by norm_num) (by norm_num)
      simpa using this
  · intro op s st sp tp h
    cases op with
    | startOp =>
      simp only [step] at h
      rw [animStart] at h
      by_cases hg : (hasStarted s || isCanceled s) = true
      · rw [if_pos hg] at h; simp at h
      · rw [if_neg hg] at h
        dsimp only at h
        rw [List.mem_append] at h
        rcases h with h | h
        · by_cases ho : s.config.hasOnStart = true
          · rw [if_pos ho] at h; simp at h
          · rw [if_neg ho] at h; simp at h
        · by_cases ho : s.config.hasOnStart = true
          · rw [if_pos ho] at h
            have h2 := handlerStep_update_from_render _ _ st sp tp h
            exact h2
          · rw [if_neg ho] at h
            have h2 := handlerStep_update_from_render _ _ st sp tp h
            exact h2
    | pauseOp =>
      simp only [step] at h
      rw [animPause] at h
      by_cases hg : (isPaused s || isCanceled s) = true
      · rw [if_pos hg] at h; simp at h
      · rw [if_neg hg] at h
        dsimp only at h
        by_cases hp : s.config.hasOnPause = true
        · rw [if_pos hp] at h; simp at h
        · rw [if_neg hp] at h; simp at h
    | resumeOp =>
      simp only [step] at h
      rw [animResume] at h
      by_cases hg : (!isPaused s || isCanceled s) = true
      · rw [if_pos hg] at h; simp at h
      · rw [if_neg hg] at h
        dsimp only at h
        rw [List.mem_append] at h
        rcases h with h | h
        · by_cases ho : s.config.hasOnResume = true
          · rw [if_pos ho] at h; simp at h
          · rw [if_neg ho] at h; simp at h
        · by_cases ho : s.config.hasOnResume = true
          · rw [if_pos ho] at h
            have h2 := handlerStep_update_from_render _ _ st sp tp h
            exact h2
          · rw [if_neg ho] at h
            have h2 := handlerStep_update_from_render _ _ st sp tp h
            exact h2
    | endOp =>
      simp only [step] at h
      exact ⟨1, animEnd_update_from_render _ _ _ _ h⟩
    | cancelOp =>
      simp only [step] at h
      rw [animCancel] at h
      by_cases hg : isCanceled s = true
      · rw [if_pos hg] at h; simp at h
      · rw [if_neg hg] at h
        dsimp only at h
        exact absurd h (invokeCancelChain_update_not_mem _ _ _ _ _)
    | tickOp =>
      simp only [step] at h
      rw [animTick] at h
      by_cases hg : s.pending = 0
      · rw [if_pos hg] at h; simp at h
      · rw [if_neg hg] at h
        have h2 := handlerStep_update_from_render _ _ st sp tp h
        exact h2

/-- Configuration used by witnesses: identity timing, no optional
callbacks. -/
def c4Cfg : AnimConfig :=
  { fromVal := 5, toVal := 15, durationSeconds := 2, progress := none,
    timingFunction := none, maxFps := none, hasOnStart := false,
    hasOnPause := false, hasOnResume := false, hasOnEnd := false,
    hasOnCancel := false }

/-- Witness for claim C4: identity timing at time progress one half. -/
theorem render_contract_witness :
    (c4Cfg.timingFunction = none ∧ (0 : ℚ) ≤ 1/2 ∧ (1/2 : ℚ) ≤ 1)
    ∧ render c4Cfg (1/2)
        = [Ev.update (c4Cfg.fromVal + ((c4Cfg.toVal - c4Cfg.fromVal) * (1/2)))
            (1/2) (1/2)] :=
  ⟨⟨rfl, by norm_num, by norm_num⟩,
    render_contract.2.1 c4Cfg (1/2) rfl (by norm_num) (by norm_num)⟩

/-- Helper: when the original onEnd callback is in the chain, invoking the
chain emits the onEnd event. -/
lemma invokeEndChain_endEv_mem (chain : List EndAtom) :
    ∀ ps, EndAtom.orig ∈ chain → Ev.endEv ∈ (invokeEndChain chain ps).1 := by
  induction chain with
  | nil => intro ps h; simp at h
  | cons a rest ih =>
    intro ps h
    cases a with
    | orig => simp [invokeEndChain]
    | resolveA pid =>
      rw [List.mem_cons] at h
      rcases h with h | h
      · exact absurd h (by simp)
      · by_cases hp : plookup ps pid = some PState.pendingP
        · simp only [invokeEndChain, if_pos hp, List.mem_cons]
          exact Or.inr (ih _ h)
        · simp only [invokeEndChain, if_neg hp]
          exact ih _ h

/-- Claim C2 (amended): on a non-terminal instance end() delivers a final
onUpdate whose timeProgress is exactly 1 and whose stateProgress is the
configured timing function applied to 1 (exactly 1 when no timing function
is configured), then pins the stored timeProgress to 1, records endTime
from the clock, and invokes the onEnd chain. -/
theorem end_final_render (s : AnimState)
    (h1 : hasEnded s = false) (h2 : isCanceled s = false) :
    (animEnd s).2
      = render s.config 1 ++ (invokeEndChain s.onEndChain s.promises).1
    ∧ (animEnd s).2.head?
        = some (Ev.update
            (s.config.fromVal + ((s.config.toVal - s.config.fromVal)
              * applyTiming s.config 1))
            (applyTiming s.config 1) 1)
    ∧ (s.config.timingFunction = none →
        (animEnd s).2.head? = some (Ev.update s.config.toVal 1 1))
    ∧ (animEnd s).1.timeProgress = 1
    ∧ (animEnd s).1.endTime = some (s.clock s.clockIdx)
    ∧ (EndAtom.orig ∈ s.onEndChain → Ev.endEv ∈ (animEnd s).2) := by
  have hguard : ¬(hasEnded s || isCanceled s) = true := by simp [h1, h2]
  have hc1 : clampTP 1 = 1 := by norm_num [clampTP]
  unfold animEnd
  rw [if_neg hguard]
  dsimp only
  refine ⟨rfl, ?_, ?_, rfl, rfl, ?_⟩
  · simp [render, hc1]
  · intro hnone
    simp [render, hc1, applyTiming, hnone]
  · intro hmem
    rw [List.mem_append]
    exact Or.inr (invokeEndChain_endEv_mem _ _ hmem)

/-- Configuration with the constant timing function fixed 0.3, used to
refute claim C2 as stated. -/
def c2Cfg : AnimConfig :=
  { fromVal := 0, toVal := 100, durationSeconds := 1, progress := none,
    timingFunction := some (fixed (3/10)), maxFps := none, hasOnStart := false,
    hasOnPause := false, hasOnResume := false, hasOnEnd := true,
    hasOnCancel := false }

/-- Counterexample to claim C2 as stated: with the timing function
fixed 0.3 configured, the final onUpdate delivered by end() carries
stateProgress 0.3, not 1.0, even though timeProgress is 1.0. -/
theorem end_state_progress_not_one :
    hasEnded (mkAnimation c2Cfg (fun _ => 0)) = false
    ∧ isCanceled (mkAnimation c2Cfg (fun _ => 0)) = false
    ∧ (animEnd (mkAnimation c2Cfg (fun _ => 0))).2
        = [Ev.update 30 (3/10) 1, Ev.endEv]
    ∧ ((3 : ℚ)/10) ≠ 1 := by
  refine ⟨rfl, rfl, ?_, by norm_num⟩
  norm_num [animEnd, mkAnimation, c2Cfg, hasEnded, isCanceled, render,
    clampTP, applyTiming, fixed, invokeEndChain]

/-- Witness for claim C2 at a concrete non-terminal instance. -/
theorem end_final_render_witness :
    (hasEnded (mkAnimation c4Cfg (fun _ => 0)) = false
      ∧ isCanceled (mkAnimation c4Cfg (fun _ => 0)) = false
      ∧ (mkAnimation c4Cfg (fun _ => 0)).config.timingFunction = none)
    ∧ (animEnd (mkAnimation c4Cfg (fun _ => 0))).2.head?
        = some (Ev.update (mkAnimation c4Cfg (fun _ => 0)).config.toVal 1 1)
    ∧ (animEnd (mkAnimation c4Cfg (fun _ => 0))).1.timeProgress = 1 :=
  ⟨⟨rfl, rfl, rfl⟩,
    (end_final_render (mkAnimation c4Cfg (fun _ => 0)) rfl rfl).2.2.1 rfl,
    (end_final_render (mkAnimation c4Cfg (fun _ => 0)) rfl rfl).2.2.2.1⟩

/-- Claim C1 (amended): a canceled instance is fully terminal (every
lifecycle operation is a no-op, changing no state and emitting no event),
while an ended instance is only partially terminal: end() is a no-op,
start() is a no-op when the instance has been started, and resume() is a
no-op when it is not paused. -/
theorem canceled_absorbing (s : AnimState) :
    (isCanceled s = true →
      animStart s = (s, []) ∧ animPause s = (s, []) ∧ animResume s = (s, [])
        ∧ animEnd s = (s, []) ∧ animCancel s = (s, []))
    ∧ (hasEnded s = true → animEnd s = (s, []))
    ∧ (hasEnded s = true → hasStarted s = true → animStart s = (s, []))
    ∧ (hasEnded s = true → isPaused s = false → animResume s = (s, [])) := by
  refine ⟨?_, ?_, ?_, ?_⟩
  · intro hc
    refine ⟨?_, ?_, ?_, ?_, ?_⟩
    · rw [animStart, if_pos (by simp [hc])]
    · rw [animPause, if_pos (by simp [hc])]
    · rw [animResume, if_pos (by simp [hc])]
    · rw [animEnd, if_pos (by simp [hc])]
    · rw [animCancel, if_pos (by simp [hc])]
  · intro he
    rw [animEnd, if_pos (by simp [he])]
  · intro he hs
    rw [animStart, if_pos (by simp [hs])]
  · intro he hp
    rw [animResume, if_pos (by simp [hp])]

/-- Configuration with every optional callback configured, used for the
counterexample to claim C1 as stated. -/
def c1Cfg : AnimConfig :=
  { fromVal := 0, toVal := 100, durationSeconds := 1, progress := none,
    timingFunction := none, maxFps := none, hasOnStart := true,
    hasOnPause := true, hasOnResume := true, hasOnEnd := true,
    hasOnCancel := true }

/-- State of a fresh instance on which end() has been called. -/
def c1Ended : AnimState := (step Op.endOp (mkAnimation c1Cfg (fun _ => 0))).1

/-- Counterexample to claim C1 as stated: on an instance whose endTime is
set (terminal by the claim's definition), cancel() still sets cancelTime
and fires onCancel, making ended and canceled simultaneously true, and
pause() still sets pauseTime and fires onPause. -/
theorem cancel_and_pause_after_end_not_noop :
    hasEnded c1Ended = true
    ∧ isCanceled c1Ended = false
    ∧ (step Op.cancelOp c1Ended).2 = [Ev.cancelEv]
    ∧ (step Op.cancelOp c1Ended).1.cancelTime = some 0
    ∧ hasEnded (step Op.cancelOp c1Ended).1 = true
    ∧ isCanceled (step Op.cancelOp c1Ended).1 = true
    ∧ (step Op.pauseOp c1Ended).2 = [Ev.pauseEv 1]
    ∧ (step Op.pauseOp c1Ended).1.pauseTime = some 0 := by
  norm_num [c1Ended, step, mkAnimation, c1Cfg, animEnd, animCancel, animPause,
    hasEnded, isCanceled, isPaused, refTime, render, clampTP, applyTiming,
    invokeEndChain, invokeCancelChain, plookup]

/-- Witness for claim C1 on a concrete canceled instance. -/
theorem canceled_absorbing_witness :
    isCanceled (step Op.cancelOp (mkAnimation c1Cfg (fun _ => 0))).1 = true
    ∧ animStart (step Op.cancelOp (mkAnimation c1Cfg (fun _ => 0))).1
        = ((step Op.cancelOp (mkAnimation c1Cfg (fun _ => 0))).1, []) :=
  ⟨rfl, ((canceled_absorbing (step Op.cancelOp (mkAnimation c1Cfg (fun _ => 0))).1).1 rfl).1⟩

/-- Claim C10: pause() on a never started instance is accepted: it sets
the paused marker to the clock reading, leaves timeProgress unchanged (the
elapsed-time fold contributes zero), and invokes onPause when configured;
a subsequent start() records startTime and invokes onStart when
configured, but emits no onUpdate and leaves no scheduler callback
pending, and a scheduler tick on the resulting state is a no-op. -/
theorem pause_before_start (cfg : AnimConfig) (clock : ℕ → ℚ) :
    (animPause (mkAnimation cfg clock)).1.pauseTime = some (clock 0)
    ∧ (animPause (mkAnimation cfg clock)).1.timeProgress
        = (mkAnimation cfg clock).timeProgress
    ∧ (animPause (mkAnimation cfg clock)).2
        = (if cfg.hasOnPause then
            [Ev.pauseEv (mkAnimation cfg clock).timeProgress] else [])
    ∧ (animStart (animPause (mkAnimation cfg clock)).1).1.startTime.isSome = true
    ∧ (animStart (animPause (mkAnimation cfg clock)).1).2
        = (if cfg.hasOnStart then [Ev.start] else [])
    ∧ (animStart (animPause (mkAnimation cfg clock)).1).1.pending = 0
    ∧ step Op.tickOp (animStart (animPause (mkAnimation cfg clock)).1).1
        = ((animStart (animPause (mkAnimation cfg clock)).1).1, []) := by
  have hpause : animPause (mkAnimation cfg clock)
      = ({ mkAnimation cfg clock with
            clockIdx := 1,
            pauseTime := some (clock 0) },
         if cfg.hasOnPause then [Ev.pauseEv (cfg.progress.getD 0)] else []) := by
    rw [animPause, if_neg (by simp [isPaused, isCanceled, mkAnimation])]
    simp [mkAnimation, refTime]
  rw [hpause]
  have hstart : animStart { mkAnimation cfg clock with
        clockIdx := 1,
        pauseTime := some (clock 0) }
      = (if cfg.hasOnStart then
          ({ mkAnimation cfg clock with
              clockIdx := 3,
              pauseTime := some (clock 0),
              startTime := some (clock 2) }, [Ev.start])
         else
          ({ mkAnimation cfg clock with
              clockIdx := 2,
              pauseTime := some (clock 0),
              startTime := some (clock 1) }, [])) := by
    rw [animStart, if_neg (by simp [hasStarted, isCanceled, mkAnimation])]
    dsimp only
    by_cases ho : cfg.hasOnStart = true
    · simp [ho, handlerStep, isRunning, isPaused, hasStarted, hasEnded,
        isCanceled, mkAnimation]
    · simp [ho, handlerStep, isRunning, isPaused, hasStarted, hasEnded,
        isCanceled, mkAnimation]
  rw [hstart]
  by_cases ho : cfg.hasOnStart = true
  · rw [if_pos ho]
    refine ⟨rfl, by simp [mkAnimation], rfl, rfl, by simp [ho], rfl, ?_⟩
    simp [step, animTick, mkAnimation]
  · rw [if_neg ho]
    refine ⟨rfl, by simp [mkAnimation], rfl, rfl, by simp [ho], rfl, ?_⟩
    simp [step, animTick, mkAnimation]

/-- Helper: a handler call with an explicit time progress argument equal
to the stored time progress leaves the stored time progress unchanged,
provided the instance is not terminal and the argument does not exceed 1
(the end branch pins the value to exactly 1 in that case). -/
lemma handlerStep_timeProgress (s : AnimState) (tp : ℚ)
    (he : hasEnded s = false) (hcl : isCanceled s = false) (h1 : tp ≤ 1)
    (harg : s.timeProgress = tp) :
    (handlerStep s (some tp)).1.timeProgress = tp := by
  rw [handlerStep]
  by_cases hr : (!isRunning s) = true
  · rw [if_pos hr]; exact harg
  · rw [if_neg hr]
    dsimp only
    split
    · exact harg
    · split
      · rename_i hge
        have htp1 : tp = 1 := le_antisymm h1 hge
        rw [animEnd]
        split
        · rename_i hterm
          simp only [hasEnded, isCanceled] at he hcl
          simp [hasEnded, isCanceled, he, hcl] at hterm
        · dsimp only
          exact htp1.symm
      · exact harg

/-- Claim C6: on a running instance whose stored timeProgress respects the
documented unit-interval invariant, pause() immediately followed by
resume() with zero elapsed host time in between (every clock reading
involved equals the reference reading of the current run segment) leaves
the stored timeProgress unchanged from its pre-pause value. -/
theorem pause_resume_zero_elapsed (s : AnimState)
    (hRun : isRunning s = true)
    (htp : s.timeProgress ≤ 1)
    (hc0 : s.clock s.clockIdx = refTime s (s.clock s.clockIdx))
    (hc1 : s.clock (s.clockIdx + 1) = refTime s (s.clock s.clockIdx))
    (hc2 : s.clock (s.clockIdx + 2) = refTime s (s.clock s.clockIdx)) :
    (animResume (animPause s).1).1.timeProgress = s.timeProgress := by
  have hparts := hRun
  simp only [isRunning, Bool.and_eq_true, Bool.not_eq_true'] at hparts
  obtain ⟨⟨⟨hst, hend⟩, hpau⟩, hcan⟩ := hparts
  have hpg : ¬(isPaused s || isCanceled s) = true := by simp [hpau, hcan]
  have hrt : refTime { s with clockIdx := s.clockIdx + 1 } (s.clock s.clockIdx)
      = s.clock s.clockIdx := by
    have h : refTime { s with clockIdx := s.clockIdx + 1 } (s.clock s.clockIdx)
        = refTime s (s.clock s.clockIdx) := rfl
    rw [h, ← hc0]
  have hp : (animPause s).1 = { s with
      clockIdx := s.clockIdx + 1,
      pauseTime := some (s.clock s.clockIdx),
      resumeTime := none } := by
    rw [animPause, if_neg hpg]
    dsimp only
    rw [hrt]
    simp
  rw [hp]
  have hrg : ¬(!isPaused { s with
      clockIdx := s.clockIdx + 1,
      pauseTime := some (s.clock s.clockIdx),
      resumeTime := none }
        || isCanceled { s with
      clockIdx := s.clockIdx + 1,
      pauseTime := some (s.clock s.clockIdx),
      resumeTime := none }) = true := by
    simp [isPaused, isCanceled]
    simpa [isCanceled] using hcan
  rw [animResume, if_neg hrg]
  dsimp only
  by_cases hOR : s.config.hasOnResume = true
  · rw [if_pos hOR]
    have h2 := handlerStep_timeProgress
      { s with
          clockIdx := s.clockIdx + 1 + 1 + 1,
          pauseTime := none,
          resumeTime := some (s.clock (s.clockIdx + 1 + 1)) }
      s.timeProgress (by simpa [hasEnded] using hend)
      (by simpa [isCanceled] using hcan) htp rfl
    exact h2
  · rw [if_neg hOR]
    have h2 := handlerStep_timeProgress
      { s with
          clockIdx := s.clockIdx + 1 + 1,
          pauseTime := none,
          resumeTime := some (s.clock (s.clockIdx + 1)) }
      s.timeProgress (by simpa [hasEnded] using hend)
      (by simpa [isCanceled] using hcan) htp rfl
    exact h2

/-- Running state used to witness claims about pause and resume. -/
def c6State : AnimState :=
  { config := c4Cfg
    clock := fun _ => 0
    clockIdx := 0
    minHandlerCallTimeElapsed := none
    lastHandlerCallTime := none
    startTime := some 0
    pauseTime := none
    resumeTime := none
    endTime := none
    cancelTime := none
    timeProgress := 1/4
    onEndChain := []
    onCancelChain := []
    promises := []
    nextPid := 0
    pending := 0 }

/-- Witness for claim C6 on a concrete running instance with a constant
clock. -/
theorem pause_resume_zero_elapsed_witness :
    (isRunning c6State = true
      ∧ c6State.timeProgress ≤ 1
      ∧ c6State.clock c6State.clockIdx
          = refTime c6State (c6State.clock c6State.clockIdx))
    ∧ (animResume (animPause c6State).1).1.timeProgress
        = c6State.timeProgress :=
  ⟨⟨rfl, by norm_num [c6State], rfl⟩,
    pause_resume_zero_elapsed c6State rfl (by norm_num [c6State]) rfl rfl rfl⟩

/-- Configuration with maxFps 10 for the frame throttling scenario. -/
def fpsCfg : AnimConfig :=
  { fromVal := 0, toVal := 100, durationSeconds := 1, progress := none,
    timingFunction := none, maxFps := some 10, hasOnStart := false,
    hasOnPause := false, hasOnResume := false, hasOnEnd := false,
    hasOnCancel := false }

/-- Clock advancing by 0.02 seconds per query. -/
def fpsClock : ℕ → ℚ := fun n => n * (1/50)

/-- The fps scenario instance right after start: the initial render has
happened at clock reading 0.02, one handler call is pending. -/
def fpsStarted : AnimState := (step Op.startOp (mkAnimation fpsCfg fpsClock)).1

/-- Claim C7: when maxFps is configured (nonzero) and a scheduled handler
call runs while the time elapsed since the last actual render is below
1/maxFps, the handler only re-enqueues itself: it emits no onUpdate, does
not touch the last-render timestamp, and leaves the time-progress state
(stored progress and run-segment markers) unchanged; concretely, with
maxFps 10 and the clock advancing 0.02 seconds per scheduler callback,
four consecutive ticks after the initial render emit nothing and the fifth
tick, at elapsed 0.1 seconds since the last render, renders. -/
theorem handler_fps_throttle (s : AnimState) (fps minElapsed lastTime : ℚ)
    (hRun : isRunning s = true)
    (hm : s.config.maxFps = some fps) (hfps : fps ≠ 0)
    (hmin : s.minHandlerCallTimeElapsed = some minElapsed)
    (hlast : s.lastHandlerCallTime = some lastTime)
    (hel : s.clock s.clockIdx - lastTime < minElapsed) :
    handlerStep s none
      = ({ s with clockIdx := s.clockIdx + 1, pending := s.pending + 1 }, [])
    ∧ (handlerStep s none).1.lastHandlerCallTime = s.lastHandlerCallTime
    ∧ (handlerStep s none).1.timeProgress = s.timeProgress
    ∧ ((runOps [Op.tickOp, Op.tickOp, Op.tickOp, Op.tickOp] fpsStarted).2 = []
      ∧ (runOps [Op.tickOp, Op.tickOp, Op.tickOp, Op.tickOp, Op.tickOp]
          fpsStarted).2 = [Ev.update 12 (3/25) (3/25)]) := by
  have hmain : handlerStep s none
      = ({ s with clockIdx := s.clockIdx + 1, pending := s.pending + 1 }, []) := by
    rw [handlerStep, if_neg (by simp [hRun])]
    dsimp only
    rw [hm, hmin, hlast]
    dsimp only
    rw [if_pos (by simp [hfps, hel])]
  refine ⟨hmain, by rw [hmain], by rw [hmain], ?_, ?_⟩ <;>
  norm_num [runOps, step, animTick, fpsStarted, mkAnimation, fpsCfg, fpsClock,
    handlerStep, isRunning, hasStarted, hasEnded, isPaused, isCanceled,
    refTime, render, clampTP, applyTiming, animEnd, animStart]

/-- Helper: updating one key of the promise table rewrites its lookup. -/
lemma plookup_pset_self (ps : List (ℕ × PState)) (pid : ℕ) (st v : PState)
    (h : plookup ps pid = some v) : plookup (pset ps pid st) pid = some st := by
  induction ps with
  | nil => simp [plookup] at h
  | cons kv rest ih =>
    obtain ⟨k, w⟩ := kv
    by_cases hk : k = pid
    · simp [plookup, pset, hk]
    · simp only [plookup, pset, if_neg hk] at h ⊢
      exact ih h

/-- Helper: updating a different key leaves a lookup unchanged. -/
lemma plookup_pset_ne (ps : List (ℕ × PState)) (pid pid' : ℕ) (st : PState)
    (h : pid' ≠ pid) : plookup (pset ps pid' st) pid = plookup ps pid := by
  induction ps with
  | nil => simp [plookup, pset]
  | cons kv rest ih =>
    obtain ⟨k, w⟩ := kv
    by_cases hk : k = pid'
    · subst hk
      simp only [pset, if_pos rfl, plookup, if_neg h]
    · simp only [pset, if_neg hk]
      by_cases hk2 : k = pid
      · simp [plookup, hk2]
      · simp only [plookup, if_neg hk2]
        exact ih

/-- Helper: a lookup that misses the first list skips over it. -/
lemma plookup_append (l1 l2 : List (ℕ × PState)) (pid : ℕ)
    (h : plookup l1 pid = none) : plookup (l1 ++ l2) pid = plookup l2 pid := by
  induction l1 with
  | nil => simp [plookup]
  | cons kv rest ih =>
    obtain ⟨k, w⟩ := kv
    by_cases hk : k = pid
    · simp [plookup, hk] at h
    · simp only [plookup, if_neg hk] at h
      simp only [List.cons_append, plookup, if_neg hk]
      exact ih h

/-- Helper: the onEnd chain never emits reject settlement events. -/
lemma invokeEndChain_rejected_count (chain : List EndAtom) :
    ∀ (ps : List (ℕ × PState)) (pid : ℕ),
      (invokeEndChain chain ps).1.count (Ev.rejectedP pid) = 0 := by
  induction chain with
  | nil => intro ps pid; simp [invokeEndChain]
  | cons a rest ih =>
    intro ps pid
    cases a with
    | orig => simp [invokeEndChain, List.count_cons, ih]
    | resolveA pid' =>
      by_cases hp : plookup ps pid' = some PState.pendingP
      · simp [invokeEndChain, if_pos hp, List.count_cons, ih]
      · simp [invokeEndChain, if_neg hp, ih]

/-- Helper: when the queried promise is not pending, running the onEnd
chain neither changes its settlement state nor emits its resolve event. -/
lemma invokeEndChain_stable (chain : List EndAtom) :
    ∀ (ps : List (ℕ × PState)) (pid : ℕ),
      plookup ps pid ≠ some PState.pendingP →
      plookup (invokeEndChain chain ps).2 pid = plookup ps pid
      ∧ (invokeEndChain chain ps).1.count (Ev.resolvedP pid) = 0 := by
  induction chain with
  | nil => intro ps pid h; simp [invokeEndChain]
  | cons a rest ih =>
    intro ps pid h
    cases a with
    | orig =>
      have r := ih ps pid h
      simp only [invokeEndChain, List.count_cons]
      refine ⟨r.1, ?_⟩
      simp [r.2]
    | resolveA pid' =>
      by_cases hq : pid' = pid
      · subst hq
        rw [invokeEndChain, if_neg h]
        exact ih ps pid' h
      · by_cases hp : plookup ps pid' = some PState.pendingP
        · have hps' : plookup (pset ps pid' PState.resolvedS) pid
              ≠ some PState.pendingP := by
            rw [plookup_pset_ne ps pid pid' PState.resolvedS hq]
            exact h
          have r := ih (pset ps pid' PState.resolvedS) pid hps'
          rw [invokeEndChain, if_pos hp]
          dsimp only
          refine ⟨?_, ?_⟩
          · rw [r.1, plookup_pset_ne ps pid pid' PState.resolvedS hq]
          · simp [List.count_cons, r.2, hq]
        · rw [invokeEndChain, if_neg hp]
          exact ih ps pid h

/-- Helper: when the queried promise is pending and its resolver occurs in
the onEnd chain, running the chain resolves it and emits exactly one
resolve event; when the resolver does not occur, nothing happens to it. -/
lemma invokeEndChain_pending (chain : List EndAtom) :
    ∀ (ps : List (ℕ × PState)) (pid : ℕ),
      plookup ps pid = some PState.pendingP →
      ((1 ≤ chain.count (EndAtom.resolveA pid) →
          plookup (invokeEndChain chain ps).2 pid = some PState.resolvedS
          ∧ (invokeEndChain chain ps).1.count (Ev.resolvedP pid) = 1)
        ∧ (chain.count (EndAtom.resolveA pid) = 0 →
          plookup (invokeEndChain chain ps).2 pid = some PState.pendingP
          ∧ (invokeEndChain chain ps).1.count (Ev.resolvedP pid) = 0)) := by
  induction chain with
  | nil =>
    intro ps pid h
    constructor
    · intro hc; simp at hc
    · intro hc; simpa [invokeEndChain]
  | cons a rest ih =>
    intro ps pid h
    cases a with
    | orig =>
      have r := ih ps pid h
      constructor
      · intro hc
        simp only [List.count_cons, if_neg (by simp : ¬(EndAtom.orig = EndAtom.resolveA pid))] at hc
        have r1 := r.1 (by simpa using hc)
        simp only [invokeEndChain, List.count_cons]
        exact ⟨r1.1, by simp [r1.2]⟩
      · intro hc
        simp only [List.count_cons] at hc
        have r2 := r.2 (by simpa using hc)
        simp only [invokeEndChain, List.count_cons]
        exact ⟨r2.1, by simp [r2.2]⟩
    | resolveA pid' =>
      by_cases hq : pid' = pid
      · subst hq
        rw [invokeEndChain, if_pos h]
        dsimp only
        have hres : plookup (pset ps pid' PState.resolvedS) pid'
            = some PState.resolvedS := plookup_pset_self ps pid' _ _ h
        have r := invokeEndChain_stable rest (pset ps pid' PState.resolvedS) pid'
          (by rw [hres]; simp)
        constructor
        · intro _
          refine ⟨by rw [r.1, hres], ?_⟩
          simp [List.count_cons, r.2]
        · intro hc
          simp [List.count_cons] at hc
      · have hch : ∀ l : List EndAtom,
            (EndAtom.resolveA pid' :: l).count (EndAtom.resolveA pid)
              = l.count (EndAtom.resolveA pid) := by
          intro l
          simp [List.count_cons, hq]
        by_cases hp : plookup ps pid' = some PState.pendingP
        · have hpid : plookup (pset ps pid' PState.resolvedS) pid
              = some PState.pendingP := by
            rw [plookup_pset_ne ps pid pid' PState.resolvedS hq]; exact h
          have r := ih (pset ps pid' PState.resolvedS) pid hpid
          rw [invokeEndChain, if_pos hp]
          dsimp only
          constructor
          · intro hc
            rw [hch] at hc
            have r1 := r.1 hc
            exact ⟨r1.1, by simp [List.count_cons, hq, r1.2]⟩
          · intro hc
            rw [hch] at hc
            have r2 := r.2 hc
            exact ⟨r2.1, by simp [List.count_cons, hq, r2.2]⟩
        · have r := ih ps pid h
          rw [invokeEndChain, if_neg hp]
          constructor
          · intro hc
            rw [hch] at hc
            exact r.1 hc
          · intro hc
            rw [hch] at hc
            exact r.2 hc

/-- Helper: the onCancel chain never emits resolve settlement events. -/
lemma invokeCancelChain_resolved_count (chain : List CancelAtom) :
    ∀ (ps : List (ℕ × PState)) (pid : ℕ),
      (invokeCancelChain chain ps).1.count (Ev.resolvedP pid) = 0 := by
  induction chain with
  | nil => intro ps pid; simp [invokeCancelChain]
  | cons a rest ih =>
    intro ps pid
    cases a with
    | orig => simp [invokeCancelChain, List.count_cons, ih]
    | rejectA pid' =>
      by_cases hp : plookup ps pid' = some PState.pendingP
      · simp [invokeCancelChain, if_pos hp, List.count_cons, ih]
      · simp [invokeCancelChain, if_neg hp, ih]

/-- Helper: when the queried promise is not pending, running the onCancel
chain neither changes its settlement state nor emits its reject event. -/
lemma invokeCancelChain_stable (chain : List CancelAtom) :
    ∀ (ps : List (ℕ × PState)) (pid : ℕ),
      plookup ps pid ≠ some PState.pendingP →
      plookup (invokeCancelChain chain ps).2 pid = plookup ps pid
      ∧ (invokeCancelChain chain ps).1.count (Ev.rejectedP pid) = 0 := by
  induction chain with
  | nil => intro ps pid h; simp [invokeCancelChain]
  | cons a rest ih =>
    intro ps pid h
    cases a with
    | orig =>
      have r := ih ps pid h
      simp only [invokeCancelChain, List.count_cons]
      refine ⟨r.1, ?_⟩
      simp [r.2]
    | rejectA pid' =>
      by_cases hq : pid' = pid
      · subst hq
        rw [invokeCancelChain, if_neg h]
        exact ih ps pid' h
      · by_cases hp : plookup ps pid' = some PState.pendingP
        · have hps' : plookup (pset ps pid' PState.rejectedS) pid
              ≠ some PState.pendingP := by
            rw [plookup_pset_ne ps pid pid' PState.rejectedS hq]
            exact h
          have r := ih (pset ps pid' PState.rejectedS) pid hps'
          rw [invokeCancelChain, if_pos hp]
          dsimp only
          refine ⟨?_, ?_⟩
          · rw [r.1, plookup_pset_ne ps pid pid' PState.rejectedS hq]
          · simp [List.count_cons, r.2, hq]
        · rw [invokeCancelChain, if_neg hp]
          exact ih ps pid h

/-- Helper: when the queried promise is pending and its rejecter occurs in
the onCancel chain, running the chain rejects it and emits exactly one
reject event. -/
lemma invokeCancelChain_pending (chain : List CancelAtom) :
    ∀ (ps : List (ℕ × PState)) (pid : ℕ),
      plookup ps pid = some PState.pendingP →
      1 ≤ chain.count (CancelAtom.rejectA pid) →
      plookup (invokeCancelChain chain ps).2 pid = some PState.rejectedS
      ∧ (invokeCancelChain chain ps).1.count (Ev.rejectedP pid) = 1 := by
  induction chain with
  | nil =>
    intro ps pid h hc
    simp at hc
  | cons a rest ih =>
    intro ps pid h hc
    cases a with
    | orig =>
      simp only [List.count_cons,
        if_neg (by simp : ¬(CancelAtom.orig = CancelAtom.rejectA pid))] at hc
      have r := ih ps pid h (by simpa using hc)
      simp only [invokeCancelChain, List.count_cons]
      exact ⟨r.1, by simp [r.2]⟩
    | rejectA pid' =>
      by_cases hq : pid' = pid
      · subst hq
        rw [invokeCancelChain, if_pos h]
        dsimp only
        have hres : plookup (pset ps pid' PState.rejectedS) pid'
            = some PState.rejectedS := plookup_pset_self ps pid' _ _ h
        have r := invokeCancelChain_stable rest (pset ps pid' PState.rejectedS)
          pid' (by rw [hres]; simp)
        refine ⟨by rw [r.1, hres], ?_⟩
        simp [List.count_cons, r.2]
      · by_cases hp : plookup ps pid' = some PState.pendingP
        · have hpid : plookup (pset ps pid' PState.rejectedS) pid
              = some PState.pendingP := by
            rw [plookup_pset_ne ps pid pid' PState.rejectedS hq]; exact h
          have hc' : 1 ≤ rest.count (CancelAtom.rejectA pid) := by
            simpa [List.count_cons, hq] using hc
          have r := ih (pset ps pid' PState.rejectedS) pid hpid hc'
          rw [invokeCancelChain, if_pos hp]
          dsimp only
          exact ⟨r.1, by simp [List.count_cons, hq, r.2]⟩
        · have hc' : 1 ≤ rest.count (CancelAtom.rejectA pid) := by
            simpa [List.count_cons, hq] using hc
          rw [invokeCancelChain, if_neg hp]
          exact ih ps pid h hc'

/-- Invariant tying one promise created by Animation.promise to the
instance state: its resolver occurs exactly once in the onEnd chain, its
rejecter exactly once in the onCancel chain, and its settlement state
mirrors the terminal flags (resolved when ended, rejected when canceled
without having ended, pending otherwise). -/
def PInv (pid : ℕ) (s : AnimState) : Prop :=
  s.onEndChain.count (EndAtom.resolveA pid) = 1
  ∧ s.onCancelChain.count (CancelAtom.rejectA pid) = 1
  ∧ (hasEnded s = true → plookup s.promises pid = some PState.resolvedS)
  ∧ (hasEnded s = false → isCanceled s = true →
      plookup s.promises pid = some PState.rejectedS)
  ∧ (hasEnded s = false → isCanceled s = false →
      plookup s.promises pid = some PState.pendingP)

/-- Transfer obligations for one operation of the engine: the invariant is
preserved and the emitted resolve and reject events count the settlement
transitions of the promise. -/
def SettleSpec (pid : ℕ) (s : AnimState) (r : AnimState × List Ev) : Prop :=
  PInv pid r.1
  ∧ r.2.count (Ev.resolvedP pid)
      + (if plookup s.promises pid = some PState.resolvedS then 1 else 0)
      = (if plookup r.1.promises pid = some PState.resolvedS then 1 else 0)
  ∧ r.2.count (Ev.rejectedP pid)
      + (if plookup s.promises pid = some PState.rejectedS then 1 else 0)
      = (if plookup r.1.promises pid = some PState.rejectedS then 1 else 0)

/-- Helper: Animation.end preserves the promise invariant and emits the
resolve event exactly when the promise transitions from pending.  The
state the operation runs on may differ from the invariant state in fields
irrelevant to promises (clock index, render bookkeeping). -/
lemma animEnd_settle_gen (s0 : AnimState) (pid : ℕ) (h : PInv pid s0)
    (s : AnimState) (hps : s.promises = s0.promises)
    (hce : s.onEndChain = s0.onEndChain)
    (hcc : s.onCancelChain = s0.onCancelChain)
    (het : s.endTime = s0.endTime) (hct : s.cancelTime = s0.cancelTime) :
    SettleSpec pid s0 (animEnd s) := by
  obtain ⟨h1, h2, h3, h4, h5⟩ := h
  have hee : hasEnded s = hasEnded s0 := by simp [hasEnded, het]
  have hcc2 : isCanceled s = isCanceled s0 := by simp [isCanceled, hct]
  rw [animEnd]
  by_cases hg : (hasEnded s || isCanceled s) = true
  · rw [if_pos hg]
    refine ⟨⟨?_, ?_, ?_, ?_, ?_⟩, ?_, ?_⟩
    · rw [hce]; exact h1
    · rw [hcc]; exact h2
    · intro hx; rw [hps]; exact h3 (by rw [← hee]; exact hx)
    · intro hx hy
      rw [hps]
      exact h4 (by rw [← hee]; exact hx) (by rw [← hcc2]; exact hy)
    · intro hx hy
      rw [hps]
      exact h5 (by rw [← hee]; exact hx) (by rw [← hcc2]; exact hy)
    · simp [hps]
    · simp [hps]
  · rw [if_neg hg]
    dsimp only
    rw [Bool.or_eq_true] at hg
    push_neg at hg
    have he' : hasEnded s = false := by
      cases hE : hasEnded s
      · rfl
      · exact absurd hE hg.1
    have hc' : isCanceled s = false := by
      cases hC : isCanceled s
      · rfl
      · exact absurd hC hg.2
    have hpend : plookup s.promises pid = some PState.pendingP := by
      rw [hps]
      exact h5 (by rw [← hee]; exact he') (by rw [← hcc2]; exact hc')
    have hcount1 : 1 ≤ s.onEndChain.count (EndAtom.resolveA pid) := by
      rw [hce, h1]
    have hr := (invokeEndChain_pending s.onEndChain s.promises pid hpend).1 hcount1
    have hrj := invokeEndChain_rejected_count s.onEndChain s.promises pid
    refine ⟨⟨?_, ?_, ?_, ?_, ?_⟩, ?_, ?_⟩
    · rw [hce]; exact h1
    · rw [hcc]; exact h2
    · intro _; exact hr.1
    · intro hx; simp [hasEnded] at hx
    · intro hx; simp [hasEnded] at hx
    · rw [hps] at hpend
      simp [List.count_append, render, hr.1, hr.2, hpend]
    · rw [hps] at hpend
      simp [List.count_append, render, hrj, hr.1, hpend]

/-- Helper: the tick handler preserves the promise invariant and counts
settlement transitions correctly. -/
lemma handlerStep_settle (s : AnimState) (arg : Option ℚ) (pid : ℕ)
    (h : PInv pid s) : SettleSpec pid s (handlerStep s arg) := by
  cases arg with
  | none =>
    rw [handlerStep]
    by_cases hr : (!isRunning s) = true
    · rw [if_pos hr]
      exact ⟨h, by simp, by simp⟩
    · rw [if_neg hr]
      dsimp only
      split
      · exact ⟨h, by simp, by simp⟩
      · split
        · exact animEnd_settle_gen s pid h _ rfl rfl rfl rfl rfl
        · exact ⟨h, by simp [render], by simp [render]⟩
  | some tpv =>
    rw [handlerStep]
    by_cases hr : (!isRunning s) = true
    · rw [if_pos hr]
      exact ⟨h, by simp, by simp⟩
    · rw [if_neg hr]
      dsimp only
      split
      · exact ⟨h, by simp, by simp⟩
      · split
        · exact animEnd_settle_gen s pid h _ rfl rfl rfl rfl rfl
        · exact ⟨h, by simp [render], by simp [render]⟩

/-- Helper: every operation of the engine preserves the promise invariant
and counts settlement transitions correctly. -/
lemma step_settle (op : Op) (s : AnimState) (pid : ℕ) (h : PInv pid s) :
    SettleSpec pid s (step op s) := by
  cases op with
  | startOp =>
    simp only [step]
    rw [animStart]
    by_cases hg : (hasStarted s || isCanceled s) = true
    · rw [if_pos hg]
      exact ⟨h, by simp, by simp⟩
    · rw [if_neg hg]
      dsimp only
      by_cases ho : s.config.hasOnStart = true
      · rw [if_pos ho, if_pos ho]
        have hh := handlerStep_settle
          { s with clockIdx := s.clockIdx + 1 + 1,
                   startTime := some (s.clock (s.clockIdx + 1)) }
          (some s.timeProgress) pid h
        refine ⟨hh.1, ?_, ?_⟩
        · simpa [List.count_append] using hh.2.1
        · simpa [List.count_append] using hh.2.2
      · rw [if_neg ho, if_neg ho]
        have hh := handlerStep_settle
          { s with clockIdx := s.clockIdx + 1,
                   startTime := some (s.clock s.clockIdx) }
          (some s.timeProgress) pid h
        refine ⟨hh.1, ?_, ?_⟩
        · simpa [List.count_append] using hh.2.1
        · simpa [List.count_append] using hh.2.2
  | pauseOp =>
    simp only [step]
    rw [animPause]
    by_cases hg : (isPaused s || isCanceled s) = true
    · rw [if_pos hg]
      exact ⟨h, by simp, by simp⟩
    · rw [if_neg hg]
      dsimp only
      by_cases hp : s.config.hasOnPause = true
      · rw [if_pos hp]
        exact ⟨h, by simp, by simp⟩
      · rw [if_neg hp]
        exact ⟨h, by simp, by simp⟩
  | resumeOp =>
    simp only [step]
    rw [animResume]
    by_cases hg : (!isPaused s || isCanceled s) = true
    · rw [if_pos hg]
      exact ⟨h, by simp, by simp⟩
    · rw [if_neg hg]
      dsimp only
      by_cases ho : s.config.hasOnResume = true
      · rw [if_pos ho, if_pos ho]
        have hh := handlerStep_settle
          { s with clockIdx := s.clockIdx + 1 + 1,
                   pauseTime := none,
                   resumeTime := some (s.clock (s.clockIdx + 1)) }
          (some s.timeProgress) pid h
        refine ⟨hh.1, ?_, ?_⟩
        · simpa [List.count_append] using hh.2.1
        · simpa [List.count_append] using hh.2.2
      · rw [if_neg ho, if_neg ho]
        have hh := handlerStep_settle
          { s with clockIdx := s.clockIdx + 1,
                   pauseTime := none,
                   resumeTime := some (s.clock s.clockIdx) }
          (some s.timeProgress) pid h
        refine ⟨hh.1, ?_, ?_⟩
        · simpa [List.count_append] using hh.2.1
        · simpa [List.count_append] using hh.2.2
  | endOp =>
    simp only [step]
    exact animEnd_settle_gen s pid h s rfl rfl rfl rfl rfl
  | cancelOp =>
    simp only [step]
    rw [animCancel]
    obtain ⟨h1, h2, h3, h4, h5⟩ := h
    by_cases hg : isCanceled s = true
    · rw [if_pos hg]
      exact ⟨⟨h1, h2, h3, h4, h5⟩, by simp, by simp⟩
    · rw [if_neg hg]
      dsimp only
      have hc' : isCanceled s = false := by
        cases hC : isCanceled s
        · rfl
        · exact absurd hC hg
      by_cases he : hasEnded s = true
      · have hres : plookup s.promises pid = some PState.resolvedS := h3 he
        have hst := invokeCancelChain_stable s.onCancelChain s.promises pid
          (by rw [hres]; simp)
        have hrc := invokeCancelChain_resolved_count s.onCancelChain s.promises pid
        refine ⟨⟨h1, h2, ?_, ?_, ?_⟩, ?_, ?_⟩
        · intro _
          rw [hst.1]
          exact hres
        · intro hx
          exact absurd hx (by simp [he] : ¬(hasEnded s = false))
        · intro hx
          exact absurd hx (by simp [he] : ¬(hasEnded s = false))
        · simp [hrc, hst.1]
        · simp [hst.2, hst.1]
      · have he' : hasEnded s = false := by
          cases hE : hasEnded s
          · rfl
          · exact absurd hE he
        have hpend : plookup s.promises pid = some PState.pendingP := h5 he' hc'
        have hr := invokeCancelChain_pending s.onCancelChain s.promises pid
          hpend (by rw [h2])
        have hrc := invokeCancelChain_resolved_count s.onCancelChain s.promises pid
        refine ⟨⟨h1, h2, ?_, ?_, ?_⟩, ?_, ?_⟩
        · intro hx
          exact absurd hx (by simp [he'] : ¬(hasEnded s = true))
        · intro _ _
          exact hr.1
        · intro _ hy
          simp [isCanceled] at hy
        · simp [hrc, hr.1, hpend]
        · simp [hr.1, hr.2, hpend]
  | tickOp =>
    simp only [step]
    rw [animTick]
    by_cases hp : s.pending = 0
    · rw [if_pos hp]
      exact ⟨h, by simp, by simp⟩
    · rw [if_neg hp]
      have hh := handlerStep_settle { s with pending := s.pending - 1 } none pid h
      exact hh

/-- Helper: running a sequence of operations preserves the promise
invariant, and the total resolve and reject event counts equal the
settlement indicator differences. -/
lemma runOps_settle (pid : ℕ) (σ : List Op) :
    ∀ (s : AnimState), PInv pid s →
    PInv pid (runOps σ s).1
    ∧ (runOps σ s).2.count (Ev.resolvedP pid)
        + (if plookup s.promises pid = some PState.resolvedS then 1 else 0)
        = (if plookup (runOps σ s).1.promises pid = some PState.resolvedS
            then 1 else 0)
    ∧ (runOps σ s).2.count (Ev.rejectedP pid)
        + (if plookup s.promises pid = some PState.rejectedS then 1 else 0)
        = (if plookup (runOps σ s).1.promises pid = some PState.rejectedS
            then 1 else 0) := by
  induction σ with
  | nil =>
    intro s h
    exact ⟨h, by simp [runOps], by simp [runOps]⟩
  | cons op rest ih =>
    intro s h
    have h1 := step_settle op s pid h
    have h2 := ih (step op s).1 h1.1
    refine ⟨h2.1, ?_, ?_⟩
    · rw [runOps]
      dsimp only
      rw [List.count_append]
      have e1 := h1.2.1
      have e2 := h2.2.1
      split_ifs at e1 e2 ⊢ <;> omega
    · rw [runOps]
      dsimp only
      rw [List.count_append]
      have e1 := h1.2.2
      have e2 := h2.2.2
      split_ifs at e1 e2 ⊢ <;> omega

/-- Helper: under the promise invariant, the settlement state mirrors the
terminal flags. -/
lemma PInv_lookup_iff (pid : ℕ) (t : AnimState) (h : PInv pid t) :
    (plookup t.promises pid = some PState.resolvedS ↔ hasEnded t = true)
    ∧ (plookup t.promises pid = some PState.rejectedS
        ↔ (hasEnded t = false ∧ isCanceled t = true)) := by
  obtain ⟨_, _, f3, f4, f5⟩ := h
  constructor
  · constructor
    · intro hres
      by_contra hne
      have hef : hasEnded t = false := by
        cases hE : hasEnded t
        · rfl
        · exact absurd hE hne
      by_cases hcf : isCanceled t = true
      · rw [f4 hef hcf] at hres
        simp at hres
      · have hcf' : isCanceled t = false := by
          cases hC : isCanceled t
          · rfl
          · exact absurd hC hcf
        rw [f5 hef hcf'] at hres
        simp at hres
    · exact f3
  · constructor
    · intro hrej
      by_cases hef : hasEnded t = true
      · rw [f3 hef] at hrej
        simp at hrej
      · have hef' : hasEnded t = false := by
          cases hE : hasEnded t
          · rfl
          · exact absurd hE hef
        by_cases hcf : isCanceled t = true
        · exact ⟨hef', hcf⟩
        · have hcf' : isCanceled t = false := by
            cases hC : isCanceled t
            · rfl
            · exact absurd hC hcf
          rw [f5 hef' hcf'] at hrej
          simp at hrej
    · intro hy
      exact f4 hy.1 hy.2

/-- Claim C5: Animation.promise returns an already-resolved result when
the instance has ended and an already-rejected one when it is canceled;
otherwise it returns a fresh pending promise whose resolve and reject
halves are appended to the existing onEnd and onCancel chains (composing
with, not replacing, the pre-existing callbacks, which still run), and
along every subsequent operation sequence the promise resolves at most
once, rejects at most once, resolves exactly once precisely when the run
has completed (ended), rejects exactly once precisely when the run is
canceled without having ended, and never both. -/
theorem promise_contract (s : AnimState) (σ : List Op)
    (hfresh : plookup s.promises s.nextPid = none)
    (hfe : s.onEndChain.count (EndAtom.resolveA s.nextPid) = 0)
    (hfc : s.onCancelChain.count (CancelAtom.rejectA s.nextPid) = 0) :
    (hasEnded s = true → animPromise s = (s, PromiseResult.resolvedNow))
    ∧ (hasEnded s = false → isCanceled s = true →
        animPromise s = (s, PromiseResult.rejectedNow))
    ∧ (hasEnded s = false → isCanceled s = false →
        (animPromise s).2 = PromiseResult.pendingNew s.nextPid
        ∧ (animPromise s).1.onEndChain
            = s.onEndChain ++ [EndAtom.resolveA s.nextPid]
        ∧ (animPromise s).1.onCancelChain
            = s.onCancelChain ++ [CancelAtom.rejectA s.nextPid]
        ∧ (runOps σ (animPromise s).1).2.count (Ev.resolvedP s.nextPid) ≤ 1
        ∧ (runOps σ (animPromise s).1).2.count (Ev.rejectedP s.nextPid) ≤ 1
        ∧ ((runOps σ (animPromise s).1).2.count (Ev.resolvedP s.nextPid) = 1
            ↔ hasEnded (runOps σ (animPromise s).1).1 = true)
        ∧ ((runOps σ (animPromise s).1).2.count (Ev.rejectedP s.nextPid) = 1
            ↔ (hasEnded (runOps σ (animPromise s).1).1 = false
                ∧ isCanceled (runOps σ (animPromise s).1).1 = true))
        ∧ ¬((runOps σ (animPromise s).1).2.count (Ev.resolvedP s.nextPid) = 1
            ∧ (runOps σ (animPromise s).1).2.count (Ev.rejectedP s.nextPid)
                = 1)) := by
  refine ⟨?_, ?_, ?_⟩
  · intro he
    rw [animPromise, if_pos he]
  · intro he hc
    rw [animPromise, if_neg (by simp [he]), if_pos hc]
  · intro he hc
    rw [animPromise, if_neg (by simp [he]), if_neg (by simp [hc])]
    dsimp only
    have hpend1 : plookup
        (s.promises ++ [(s.nextPid, PState.pendingP)]) s.nextPid
        = some PState.pendingP := by
      rw [plookup_append s.promises _ s.nextPid hfresh]
      simp [plookup]
    have hInv : PInv s.nextPid { s with
        onEndChain := s.onEndChain ++ [EndAtom.resolveA s.nextPid],
        onCancelChain := s.onCancelChain ++ [CancelAtom.rejectA s.nextPid],
        promises := s.promises ++ [(s.nextPid, PState.pendingP)],
        nextPid := s.nextPid + 1 } := by
      refine ⟨?_, ?_, ?_, ?_, ?_⟩
      · simp [List.count_append, hfe]
      · simp [List.count_append, hfc]
      · intro hx
        exact absurd hx (by simp [hasEnded] at he ⊢; exact he)
      · intro _ hy
        exact absurd hy (by simp [isCanceled] at hc ⊢; exact hc)
      · intro _ _
        exact hpend1
    have hrun := runOps_settle s.nextPid σ _ hInv
    obtain ⟨hfin, heq1, heq2⟩ := hrun
    dsimp only at heq1 heq2
    rw [hpend1] at heq1 heq2
    simp only [reduceCtorEq, Option.some.injEq, if_false, add_zero,
      if_neg (by simp : ¬(PState.pendingP = PState.resolvedS)),
      if_neg (by simp : ¬(PState.pendingP = PState.rejectedS))] at heq1 heq2
    have hiffs := PInv_lookup_iff s.nextPid _ hfin
    refine ⟨rfl, rfl, rfl, ?_, ?_, ?_, ?_, ?_⟩
    · rw [heq1]
      split_ifs <;> norm_num
    · rw [heq2]
      split_ifs <;> norm_num
    · rw [heq1]
      split_ifs with hcond
      · simp [hiffs.1.mp hcond]
      · constructor
        · intro h01
          exact absurd h01 (by norm_num)
        · intro hend
          exact absurd (hiffs.1.mpr hend) hcond
    · rw [heq2]
      split_ifs with hcond
      · simp [hiffs.2.mp hcond]
      · constructor
        · intro h01
          exact absurd h01 (by norm_num)
        · intro hcc
          exact absurd (hiffs.2.mpr hcc) hcond
    · rintro ⟨ha, hb⟩
      rw [heq1] at ha
      rw [heq2] at hb
      split_ifs at ha with h1
      split_ifs at hb with h2
      rw [h1] at h2
      simp at h2

/-- Witness for claim C5 on a fresh instance with both original callbacks
configured, running end() and then cancel() after taking the promise. -/
theorem promise_contract_witness :
    (plookup (mkAnimation c1Cfg (fun _ => 0)).promises
        (mkAnimation c1Cfg (fun _ => 0)).nextPid = none
      ∧ (mkAnimation c1Cfg (fun _ => 0)).onEndChain.count
          (EndAtom.resolveA (mkAnimation c1Cfg (fun _ => 0)).nextPid) = 0
      ∧ (mkAnimation c1Cfg (fun _ => 0)).onCancelChain.count
          (CancelAtom.rejectA (mkAnimation c1Cfg (fun _ => 0)).nextPid) = 0
      ∧ hasEnded (mkAnimation c1Cfg (fun _ => 0)) = false
      ∧ isCanceled (mkAnimation c1Cfg (fun _ => 0)) = false)
    ∧ (animPromise (mkAnimation c1Cfg (fun _ => 0))).2
        = PromiseResult.pendingNew (mkAnimation c1Cfg (fun _ => 0)).nextPid :=
  ⟨⟨rfl, by decide, by decide, rfl, rfl⟩,
    ((promise_contract (mkAnimation c1Cfg (fun _ => 0))
      [Op.endOp, Op.cancelOp] rfl (by decide) (by decide)).2.2 rfl rfl).1⟩

/-- Witness for claim C7: the scenario state right after its first render,
whose next scheduler callback arrives 0.02 seconds later. -/
theorem handler_fps_throttle_witness :
    (isRunning fpsStarted = true
      ∧ fpsStarted.config.maxFps = some 10
      ∧ (10 : ℚ) ≠ 0
      ∧ fpsStarted.minHandlerCallTimeElapsed = some (1/10)
      ∧ fpsStarted.lastHandlerCallTime = some (1/50)
      ∧ fpsStarted.clock fpsStarted.clockIdx - 1/50 < 1/10)
    ∧ (handlerStep fpsStarted none).1.lastHandlerCallTime
        = fpsStarted.lastHandlerCallTime :=
  ⟨⟨by norm_num [fpsStarted, step, animStart, mkAnimation, fpsCfg, fpsClock,
      handlerStep, isRunning, hasStarted, hasEnded, isPaused, isCanceled,
      refTime, render, clampTP, applyTiming],
    by norm_num [fpsStarted, step, animStart, mkAnimation, fpsCfg, fpsClock,
      handlerStep, isRunning, hasStarted, hasEnded, isPaused, isCanceled,
      refTime, render, clampTP, applyTiming],
    by norm_num,
    by norm_num [fpsStarted, step, animStart, mkAnimation, fpsCfg, fpsClock,
      handlerStep, isRunning, hasStarted, hasEnded, isPaused, isCanceled,
      refTime, render, clampTP, applyTiming],
    by norm_num [fpsStarted, step, animStart, mkAnimation, fpsCfg, fpsClock,
      handlerStep, isRunning, hasStarted, hasEnded, isPaused, isCanceled,
      refTime, render, clampTP, applyTiming],
    by norm_num [fpsStarted, step, animStart, mkAnimation, fpsCfg, fpsClock,
      handlerStep, isRunning, hasStarted, hasEnded, isPaused, isCanceled,
      refTime, render, clampTP, applyTiming]⟩,
    (handler_fps_throttle fpsStarted 10 (1/10) (1/50)
      (by norm_num [fpsStarted, step, animStart, mkAnimation, fpsCfg, fpsClock,
        handlerStep, isRunning, hasStarted, hasEnded, isPaused, isCanceled,
        refTime, render, clampTP, applyTiming])
      (by norm_num [fpsStarted, step, animStart, mkAnimation, fpsCfg, fpsClock,
        handlerStep, isRunning, hasStarted, hasEnded, isPaused, isCanceled,
        refTime, render, clampTP, applyTiming])
      (by norm_num)
      (by norm_num [fpsStarted, step, animStart, mkAnimation, fpsCfg, fpsClock,
        handlerStep, isRunning, hasStarted, hasEnded, isPaused, isCanceled,
        refTime, render, clampTP, applyTiming])
      (by norm_num [fpsStarted, step, animStart, mkAnimation, fpsCfg, fpsClock,
        handlerStep, isRunning, hasStarted, hasEnded, isPaused, isCanceled,
        refTime, render, clampTP, applyTiming])
      (by norm_num [fpsStarted, step, animStart, mkAnimation, fpsCfg, fpsClock,
        handlerStep, isRunning, hasStarted, hasEnded, isPaused, isCanceled,
        refTime, render, clampTP, applyTiming])).2.1⟩
